import Mathlib

/-!
Verification of the Conversational-Data-Cleaner core against its design
specification.  The development shallowly embeds the two central modules:

* `src/data_core/adjustments.py` (`TableRefiner`): a pandas `DataFrame` is
  modelled as a rectangular grid of cells with named columns (`Table` below);
  cells are missing markers, strings, or other scalar values.
* `src/intelligence/columns/time.py` (`TimeColumnDetector`,
  `Preference_Date_And_Hour`): here column dtypes matter, so a `DataFrame`
  is modelled as an ordered association list of named, dtype-tagged series
  (`Frame` below).  Timestamps (`datetime64[ns]`, timezone-naive) are
  modelled as integer seconds since 1970-01-01 00:00:00.

Python exceptions (`KeyError`, `ValueError`, `TypeError`) are modelled with
`Except`; `pd.NA`/`NaN`/`NaT` are `Option.none` / `Cell.na`.
-/

/-- Decidable equality for `Except`, used to evaluate witnesses. -/
instance {ε α : Type} [DecidableEq ε] [DecidableEq α] : DecidableEq (Except ε α) := fun x y =>
  match x, y with
  | .ok a, .ok b =>
    if h : a = b then isTrue (by rw [h])
    else isFalse (fun hc => by injection hc with h2; exact h h2)
  | .error a, .error b =>
    if h : a = b then isTrue (by rw [h])
    else isFalse (fun hc => by injection hc with h2; exact h h2)
  | .ok _, .error _ => isFalse (fun hc => by injection hc)
  | .error _, .ok _ => isFalse (fun hc => by injection hc)

namespace DataCleaner

/-! ### Cells and the structural table model (`TableRefiner`) -/

/-- A single cell of a raw pandas table.  `na` is any missing-value marker
(`NaN`, `NaT`, `pd.NA`); `str` a Python string; `num` any other scalar value
(numbers, timestamps, ...), which is neither missing nor a string. -/
inductive Cell where
  | na : Cell
  | str (s : String) : Cell
  | num (v : Int) : Cell
  deriving DecidableEq, Repr

/-- Model of `pd.isna` on a single cell. -/
def Cell.isna : Cell → Bool
  | .na => true
  | _ => false

/-- Model of `_cell_is_empty` from `adjustments.py`: missing, or a string
that strips to the empty string (Python `x.strip() == ""`, i.e. every
character is whitespace). -/
def cellIsEmpty : Cell → Bool
  | .na => true
  | .str s => s.data.all Char.isWhitespace
  | .num _ => false

/-- A pandas `DataFrame` viewed structurally: named columns and a list of
rows.  A well-formed frame is rectangular (`Table.Rect`). -/
structure Table where
  header : List String
  rows : List (List Cell)
  deriving DecidableEq, Repr

/-- Number of columns. -/
def Table.ncols (t : Table) : Nat := t.header.length

/-- Rectangularity: every row has exactly one cell per column. -/
def Table.Rect (t : Table) : Prop := ∀ r ∈ t.rows, r.length = t.header.length

instance (t : Table) : Decidable t.Rect := by
  unfold Table.Rect; infer_instance

/-- Model of `DataFrame.empty`: true when either axis has length zero. -/
def Table.isEmptyDf (t : Table) : Bool := t.rows.isEmpty || t.header.isEmpty

/-- Projection of a table onto the columns at positions `idxs`, in order
(the effect of pandas column selection such as `df.loc[:, mask]`). -/
def selectCols (t : Table) (idxs : List Nat) : Table :=
  ⟨idxs.map (fun j => t.header.getD j ""),
   t.rows.map (fun r => idxs.map (fun j => r.getD j Cell.na))⟩

/-- Whether every cell of column `j` is a missing-value marker. -/
def colIsAllNA (t : Table) (j : Nat) : Bool :=
  t.rows.all (fun r => (r.getD j Cell.na).isna)

/-- Whether every cell of column `j` is empty in the `_cell_is_empty` sense. -/
def colIsAllEmpty (t : Table) (j : Nat) : Bool :=
  t.rows.all (fun r => cellIsEmpty (r.getD j Cell.na))

/-- Model of `self.table.dropna(axis=1, how="all")` (first step of
`TableRefiner.clean_table`): keep exactly the columns having at least one
non-missing cell.  On a zero-row table pandas drops every column (each
column's non-NA count is zero). -/
def dropnaAllCols (t : Table) : Table :=
  selectCols t ((List.range t.ncols).filter (fun j => !colIsAllNA t j))

/-- Model of `TableRefiner.drop_empty_columns`: unless the frame is empty,
drop the columns that are empty (missing or blank string) in every cell. -/
def drop_empty_columns (t : Table) : Table :=
  if t.isEmptyDf then t
  else if (List.range t.ncols).any (fun j => colIsAllEmpty t j) then
    selectCols t ((List.range t.ncols).filter (fun j => !colIsAllEmpty t j))
  else t

/-- Model of `self.table.dropna(axis=0, how="all")` (third step of
`TableRefiner.clean_table`): keep the rows having at least one non-missing
cell.  On a zero-column table every row is dropped. -/
def dropnaAllRows (t : Table) : Table :=
  ⟨t.header, t.rows.filter (fun r => !r.all Cell.isna)⟩

/-- Model of `TableRefiner.drop_trailing_empty_rows`: on a non-empty frame,
if some row is entirely empty, keep the rows up to (and including) the last
row that has a non-empty cell; with no such row the result has zero rows. -/
def drop_trailing_empty_rows (t : Table) : Table :=
  if t.isEmptyDf then t
  else
    let emptyMask := t.rows.map (fun r => r.all cellIsEmpty)
    if emptyMask.any id then
      let nonEmptyPositions :=
        (List.range t.rows.length).filter (fun i => !emptyMask.getD i true)
      match nonEmptyPositions.getLast? with
      | none => ⟨t.header, []⟩
      | some k => ⟨t.header, t.rows.take (k + 1)⟩
    else t

/-- Model of `TableRefiner.clean_table`: drop all-NaN columns, then columns
empty in every cell, then all-NaN rows, then trailing empty rows. -/
def clean_table (t : Table) : Table :=
  drop_trailing_empty_rows (dropnaAllRows (drop_empty_columns (dropnaAllCols t)))

/-- Model of `TableRefiner.keep_only_moment_and_consumption`: raise
`KeyError` (carrying every missing requested name, in request order) when a
requested column is absent, else project onto the two columns in order. -/
def keep_only_moment_and_consumption (t : Table) (momentCol consumptionCol : String) :
    Except (List String) Table :=
  let missing := [momentCol, consumptionCol].filter (fun c => !t.header.contains c)
  if missing.isEmpty then
    .ok ⟨[momentCol, consumptionCol],
         t.rows.map (fun r =>
           [r.getD (t.header.indexOf momentCol) Cell.na,
            r.getD (t.header.indexOf consumptionCol) Cell.na])⟩
  else .error missing

/-! ### Timestamps

A timezone-naive `datetime64[ns]` value is an integer number of seconds since
1970-01-01 00:00:00 (the repository never produces sub-second values).
Calendar conversion uses the standard civil-from-days / days-from-civil
algorithms, written with Euclidean division so they are correct on the whole
integer range. -/

/-- Days elapsed since 1970-01-01 for a civil date `y-m-d` (`m ∈ [1,12]`). -/
def daysFromCivil (y : Int) (m d : Nat) : Int :=
  let yy : Int := if m ≤ 2 then y - 1 else y
  let era : Int := yy.ediv 400
  let yoe : Int := yy - era * 400
  let mp : Int := (Int.ofNat m + 9).emod 12
  let doy : Int := (153 * mp + 2).ediv 5 + Int.ofNat d - 1
  let doe : Int := yoe * 365 + yoe.ediv 4 - yoe.ediv 100 + doy
  era * 146097 + doe - 719468

/-- Civil date `(y, m, d)` of the day `z` days after 1970-01-01. -/
def civilFromDays (z : Int) : Int × Nat × Nat :=
  let z' := z + 719468
  let era : Int := z'.ediv 146097
  let doe : Int := z' - era * 146097
  let yoe : Int := (doe - doe.ediv 1460 + doe.ediv 36524 - doe.ediv 146096).ediv 365
  let yy : Int := yoe + era * 400
  let doy : Int := doe - (365 * yoe + yoe.ediv 4 - yoe.ediv 100)
  let mp : Int := (5 * doy + 2).ediv 153
  let d : Int := doy - (153 * mp + 2).ediv 5 + 1
  let m : Int := if mp < 10 then mp + 3 else mp - 9
  (if m ≤ 2 then yy + 1 else yy, m.toNat, d.toNat)

/-- Seconds since epoch of the timestamp `y-m-d h:mi:s`. -/
def mkTs (y : Int) (m d h mi s : Nat) : Int :=
  daysFromCivil y m d * 86400 + (h * 3600 + mi * 60 + s : Nat)

/-- Left-pad the decimal rendering of `n` to two digits (`f"{n:02d}"`). -/
def pad2 (n : Nat) : String := if n < 10 then "0" ++ toString n else toString n

/-- Left-pad the decimal rendering of `n` to four digits (`%Y`). -/
def pad4 (n : Nat) : String :=
  if n < 10 then "000" ++ toString n
  else if n < 100 then "00" ++ toString n
  else if n < 1000 then "0" ++ toString n
  else toString n

/-- Calendar-date part of a timestamp, rendered `%Y-%m-%d` (negative years do
not occur in the data and render with a sign). -/
def formatTsDate (t : Int) : String :=
  let c := civilFromDays (t.ediv 86400)
  (if c.1 < 0 then "-" ++ pad4 c.1.natAbs else pad4 c.1.toNat) ++ "-" ++
    pad2 c.2.1 ++ "-" ++ pad2 c.2.2

/-- Time-of-day part of a timestamp, rendered `%H:%M:%S`. -/
def formatTsTime (t : Int) : String :=
  pad2 ((t.emod 86400).ediv 3600).toNat ++ ":" ++
    pad2 ((t.emod 3600).ediv 60).toNat ++ ":" ++ pad2 (t.emod 60).toNat

/-- Default string rendering of a timestamp (`str(pd.Timestamp)`),
`YYYY-MM-DD HH:MM:SS`. -/
def formatTsFull (t : Int) : String := formatTsDate t ++ " " ++ formatTsTime t

/-- Minute-of-hour of a timestamp (`pd.Timestamp.minute`). -/
def minuteOfTs (t : Int) : Int := (t.emod 3600).ediv 60

/-! ### Dtype-tagged series and frames (`time.py`) -/

/-- A pandas `Series` together with its dtype, keeping the dtypes the code
dispatches on: `datetime64[ns]` (`dt`), string/object holding strings
(`strS`), and any other dtype (`numS`, e.g. an `int64` column), which is
neither datetime-like nor string/object.  `none` cells are `NaT`/`pd.NA`. -/
inductive Series where
  | dt (cells : List (Option Int)) : Series
  | strS (cells : List (Option String)) : Series
  | numS (cells : List (Option Int)) : Series
  deriving DecidableEq, Repr

/-- Number of rows of a series. -/
def Series.len : Series → Nat
  | .dt cells => cells.length
  | .strS cells => cells.length
  | .numS cells => cells.length

/-- A `DataFrame` as the time module sees it: named, dtype-tagged columns in
order. -/
abbrev Frame := List (String × Series)

/-- Model of `self.table[col] = s`: replace the column when present,
otherwise append it on the right. -/
def setCol (f : Frame) (name : String) (s : Series) : Frame :=
  if (f.lookup name).isSome then
    f.map (fun c => if c.1 = name then (name, s) else c)
  else f ++ [(name, s)]

/-- Row count of a frame (all columns of a well-formed frame agree). -/
def frameNrows : Frame → Nat
  | [] => 0
  | c :: _ => c.2.len

/-- Model of `DataFrame.empty` for a `Frame`. -/
def frameEmpty (f : Frame) : Bool := f.isEmpty || frameNrows f == 0

/-- Errors raised by `Preference_Date_And_Hour`; the spec's `DateParseError`
is realised as `ValueError` in the code and `MissingColumnError` as
`KeyError`. -/
inductive TimeErr where
  | keyError (col : String)
  | dateParseError (col : String)
  | typeError (col : String)
  deriving DecidableEq, Repr

/-! ### Hour normalization (`_to_hhmmss`) -/

/-- Python `str.strip()` on a list of characters. -/
def stripWs (cs : List Char) : List Char :=
  ((cs.dropWhile Char.isWhitespace).reverse.dropWhile Char.isWhitespace).reverse

/-- Model of `re.sub(r"[^\d]+", ":", txt)` at character level: every
non-digit becomes `':'` (the run-collapsing is `collapseColons`). -/
def sepMap (cs : List Char) : List Char :=
  cs.map (fun c => if c.isDigit then c else ':')

/-- Collapse every run of consecutive `':'` to a single `':'`
(`re.sub(r":+", ":", ...)` composed with the previous substitution). -/
def collapseColons : List Char → List Char
  | [] => []
  | [c] => [c]
  | c :: d :: rest =>
    if c = ':' && d = ':' then collapseColons (d :: rest)
    else c :: collapseColons (d :: rest)

/-- Python `str.strip(":")`: remove leading and trailing `':'`. -/
def stripColons (cs : List Char) : List Char :=
  ((cs.dropWhile (· = ':')).reverse.dropWhile (· = ':')).reverse

/-- Python `str.split(sep)` for a one-character separator, on a list of
characters. -/
def splitOnChar (sep : Char) : List Char → List (List Char)
  | [] => [[]]
  | c :: rest =>
    let r := splitOnChar sep rest
    if c = sep then [] :: r
    else
      match r with
      | p :: ps => (c :: p) :: ps
      | [] => [[c]]

/-- Numeric value of a list of decimal digits. -/
def natOfDigits (cs : List Char) : Nat :=
  cs.foldl (fun acc c => acc * 10 + (c.toNat - '0'.toNat)) 0

/-- Python `int(...)` on a digit-run string: fails on the empty string or on
non-digits (the only shapes that reach it here). -/
def digitsToNat? (cs : List Char) : Option Nat :=
  if cs.isEmpty || !cs.all Char.isDigit then none else some (natOfDigits cs)

/-- Final step of `_to_hhmmss`: convert the three parts with `int`, validate
the ranges 0-23 / 0-59 / 0-59, and format `f"{h:02d}:{m:02d}:{s:02d}"`. -/
def hmsFormat (hh mm ss : List Char) : Option String :=
  match digitsToNat? hh, digitsToNat? mm, digitsToNat? ss with
  | some h, some m, some s =>
    if h ≤ 23 && m ≤ 59 && s ≤ 59 then
      some (pad2 h ++ ":" ++ pad2 m ++ ":" ++ pad2 s)
    else none
  | _, _, _ => none

/-- Core of `_to_hhmmss` after `str(v).strip()`, on the character list. -/
def toHHMMSSCore (cs : List Char) : Option String :=
  let txt := stripWs cs
  if txt.isEmpty then none
  else
    let txt2 := stripColons (collapseColons (sepMap txt))
    let parts := if txt2.contains ':' then splitOnChar ':' txt2 else [txt2]
    match parts with
    | [digits] =>
      if digits.isEmpty || !digits.all Char.isDigit then none
      else if digits.length = 6 then
        hmsFormat (digits.take 2) ((digits.drop 2).take 2) (digits.drop 4)
      else if digits.length = 4 then
        hmsFormat (digits.take 2) (digits.drop 2) ['0', '0']
      else if digits.length = 3 then
        hmsFormat (digits.take 1) (digits.drop 1) ['0', '0']
      else if digits.length = 2 || digits.length = 1 then
        hmsFormat digits ['0', '0'] ['0', '0']
      else none
    | [p1, p2] => hmsFormat p1 p2 ['0', '0']
    | p1 :: p2 :: p3 :: _ => hmsFormat p1 p2 p3
    | [] => none

/-- Model of `_to_hhmmss` on one cell of a string/object hour column. -/
def toHHMMSS : Option String → Option String
  | none => none
  | some s => toHHMMSSCore s.data

/-! ### `Preference_Date_And_Hour` -/

/-- Model of `Preference_Date_And_Hour.detect_date_dtype`.  `pdParse` stands
for the free-form parser `pd.to_datetime(..., errors="coerce")` applied to
one string; its exact behaviour is a pandas implementation detail, so the
operation is stated generically in it. -/
def detect_date_dtype (pdParse : String → Option Int) (f : Frame) (dateCol : String) :
    Except TimeErr Frame :=
  match f.lookup dateCol with
  | none => .error (.keyError dateCol)
  | some (.dt cells) =>
    .ok (setCol f dateCol (.strS (cells.map (Option.map formatTsDate))))
  | some (.strS cells) =>
    let parsed := cells.map (fun c => c.bind pdParse)
    if parsed.all (fun p => p.isNone) && cells.any (fun c => c.isSome) then
      .error (.dateParseError dateCol)
    else
      .ok (setCol f dateCol (.strS (parsed.map (Option.map formatTsDate))))
  | some (.numS _) => .error (.typeError dateCol)

/-- Model of `Preference_Date_And_Hour.normalize_hour_column`. -/
def normalize_hour_column (f : Frame) (hourCol : String) : Except TimeErr Frame :=
  match f.lookup hourCol with
  | none => .error (.keyError hourCol)
  | some (.dt cells) =>
    .ok (setCol f hourCol (.strS (cells.map (Option.map formatTsTime))))
  | some (.strS cells) =>
    .ok (setCol f hourCol (.strS (cells.map toHHMMSS)))
  | some (.numS _) => .error (.typeError hourCol)

/-- Model of `.astype("string")` on a column, as used by
`create_moment_column` (string columns unchanged, timestamps via
`str(pd.Timestamp)`, numbers via `str`). -/
def seriesToStr : Series → List (Option String)
  | .strS cells => cells
  | .dt cells => cells.map (Option.map formatTsFull)
  | .numS cells => cells.map (Option.map (fun v => toString v))

/-- Parse a 1- or 2-digit field with an inclusive range bound
(`strptime`-style `%m`/`%d`/`%H`/`%M`/`%S`). -/
def parseField2 (cs : List Char) (lo hi : Nat) : Option Nat :=
  if (cs.length = 1 || cs.length = 2) && cs.all Char.isDigit then
    let n := natOfDigits cs
    if lo ≤ n && n ≤ hi then some n else none
  else none

/-- Length of month `m` in year `y` (proleptic Gregorian). -/
def daysInMonth (y : Int) (m : Nat) : Nat :=
  if m = 2 then
    if y.emod 4 = 0 && (y.emod 100 ≠ 0 || y.emod 400 = 0) then 29 else 28
  else if m = 4 || m = 6 || m = 9 || m = 11 then 30
  else 31

/-- Model of `pd.to_datetime(s, errors="coerce", format="%Y-%m-%d %H:%M:%S")`
on one combined string: an exact match of the fixed format (4-digit year,
1-2 digit other fields, validated ranges and day-of-month), `none` on any
failure. -/
def parseMomentFixed (s : String) : Option Int :=
  match splitOnChar ' ' s.data with
  | [ds, ts] =>
    match splitOnChar '-' ds, splitOnChar ':' ts with
    | [ys, ms, dds], [hs, mis, ss] =>
      if ys.length = 4 && ys.all Char.isDigit then
        let y : Int := Int.ofNat (natOfDigits ys)
        match parseField2 ms 1 12, parseField2 hs 0 23,
              parseField2 mis 0 59, parseField2 ss 0 59 with
        | some mo, some h, some mi, some sec =>
          match parseField2 dds 1 (daysInMonth y mo) with
          | some d => some (mkTs y mo d h mi sec)
          | none => none
        | _, _, _, _ => none
      else none
    | _, _ => none
  | _ => none

/-- Model of `Preference_Date_And_Hour.create_moment_column`: concatenate the
two columns (as strings) with a single space — missing on either side
propagates — parse under the fixed format, write the parsed column under
`outCol`, and return the fraction of rows that parsed (0 for no rows). -/
def create_moment_column (f : Frame) (dateCol hourCol outCol : String) :
    Except TimeErr (Frame × ℚ) :=
  match f.lookup dateCol with
  | none => .error (.keyError dateCol)
  | some dser =>
    match f.lookup hourCol with
    | none => .error (.keyError hourCol)
    | some hser =>
      let combined := List.zipWith
        (fun d h => match d, h with
          | some a, some b => some (a ++ " " ++ b)
          | _, _ => none)
        (seriesToStr dser) (seriesToStr hser)
      let dtc := combined.map (fun c => c.bind parseMomentFixed)
      let rate : ℚ :=
        if dtc.length = 0 then 0
        else (dtc.countP (fun c => c.isSome) : ℚ) / (dtc.length : ℚ)
      .ok (setCol f outCol (.dt dtc), rate)

/-! ### Interval alignment (`shift_moment_minus_15_if_first15_last00`) -/

/-- Model of `TableRefiner.shift_moment_minus_15_if_first15_last00`: on a
non-empty frame whose `moment` column exists with dtype `datetime64[ns]` and
whose first and last values are not `NaT`, subtract 15 minutes from every
value exactly when the first value's minute is 15 and the last value's
minute is 0; in every other situation return the frame unchanged. -/
def shift_moment_minus_15_if_first15_last00 (f : Frame) (momentCol : String) : Frame :=
  if frameEmpty f then f
  else
    match f.lookup momentCol with
    | none => f
    | some (.strS _) => f
    | some (.numS _) => f
    | some (.dt cells) =>
      match cells.head?, cells.getLast? with
      | some (some firstVal), some (some lastVal) =>
        if minuteOfTs firstVal = 15 && minuteOfTs lastVal = 0 then
          setCol f momentCol (.dt (cells.map (Option.map (fun t => t - 900))))
        else f
      | _, _ => f

/-! ### `TimeColumnDetector` -/

/-- Modelled from the spec: `BaseColumnDetector._norm` lives in
`src/intelligence/columns/base.py`, which is not part of the sources at
hand; the spec describes the detector as matching on the "normalized
(lower-cased, trimmed) form" of a column name. -/
def normName (s : String) : String :=
  String.mk ((stripWs s.data).map Char.toLower)

/-- The fixed multilingual keyword list of `TimeColumnDetector`. -/
def TIME_KEYWORDS : List String :=
  ["time", "date", "datum", "timestamp", "zeit", "uhrzeit", "datetime",
   "from", "to", "von", "bis", "ab"]

/-- Whether `needle` starts `hay` (character-list version). -/
def listStartsWith : List Char → List Char → Bool
  | [], _ => true
  | _ :: _, [] => false
  | a :: as, b :: bs => a = b && listStartsWith as bs

/-- Python's substring test `needle in hay`. -/
def containsSub (needle hay : List Char) : Bool :=
  (List.range (hay.length + 1)).any (fun i => listStartsWith needle (hay.drop i))

/-- Model of `TimeColumnDetector._has_time_keyword`. -/
def hasTimeKeyword (name : String) : Bool :=
  TIME_KEYWORDS.any (fun k => containsSub k.data (normName name).data)

/-- Model of `TimeColumnDetector.detect_time_columns`.  Modelled from the
spec where `base.py` is missing: `self.columns` is the source table's column
names in order (`list(table.columns)`), and the detection uses names only. -/
def detect_time_columns (f : Frame) : List String :=
  (f.map Prod.fst).filter hasTimeKeyword

/-! ### Claim-side (specification) notions

The following definitions transcribe the wording of the specification (not
the code); the claim theorems compare the code models against them. -/

/-- Spec wording (C3): the first row's minute-of-hour, defined when the
`moment` column exists as a genuine datetime column and the first value is
valid. -/
def firstMinuteOfMoment (f : Frame) (mcol : String) : Option Int :=
  match f.lookup mcol with
  | some (.dt cells) =>
    match cells.head? with
    | some (some t) => some (minuteOfTs t)
    | _ => none
  | _ => none

/-- Spec wording (C3): the last row's minute-of-hour. -/
def lastMinuteOfMoment (f : Frame) (mcol : String) : Option Int :=
  match f.lookup mcol with
  | some (.dt cells) =>
    match cells.getLast? with
    | some (some t) => some (minuteOfTs t)
    | _ => none
  | _ => none

/-- Spec wording (C3): the table is non-empty, the first row's minute-of-hour
equals 15 and the last row's minute-of-hour equals 0. -/
def alignShiftCondition (f : Frame) (mcol : String) : Bool :=
  !frameEmpty f && firstMinuteOfMoment f mcol == some 15 &&
    lastMinuteOfMoment f mcol == some 0

/-- Spec wording (C3): subtract 15 minutes from every value of the `moment`
column. -/
def subtractQuarterHour (f : Frame) (mcol : String) : Frame :=
  match f.lookup mcol with
  | some (.dt cells) => setCol f mcol (.dt (cells.map (Option.map (fun t => t - 900))))
  | _ => f

/-- Spec wording (C2): concatenate the date string and the hour string with
a single space; missing on either side gives a missing combined value. -/
def combineWithSpace (d h : Option String) : Option String :=
  match d, h with
  | some a, some b => some (a ++ " " ++ b)
  | _, _ => none

/-- Spec wording (C2): the `moment` values of a date column and an hour
column — each combined string parsed under the fixed format. -/
def momentsOf (ds hs : List (Option String)) : List (Option Int) :=
  (List.zipWith combineWithSpace ds hs).map (fun c => c.bind parseMomentFixed)

/-- Spec wording (C2): the fraction of rows that parsed successfully, `0`
for a zero-row table. -/
def successFraction (l : List (Option Int)) : ℚ :=
  if l.length = 0 then 0 else (l.countP (fun c => c.isSome) : ℚ) / (l.length : ℚ)

/-- Spec wording (C1): a clock triple is rendered `HH:MM:SS` when each part
is in range (hour 0-23, minute 0-59, second 0-59) and is invalid otherwise —
out-of-range parts are not clamped. -/
def specClock (h m s : Nat) : Option String :=
  if h ≤ 23 ∧ m ≤ 59 ∧ s ≤ 59 then some (pad2 h ++ ":" ++ pad2 m ++ ":" ++ pad2 s)
  else none

/-- Spec wording (C5): remove every column that is empty in all rows, under
the uniform cell-emptiness predicate. -/
def uniformDropEmptyCols (t : Table) : Table :=
  selectCols t ((List.range t.ncols).filter (fun j => !colIsAllEmpty t j))

/-- The table of the spec's trailing-trim example: 8 rows with non-empty
rows exactly at positions 0, 2 and 5. -/
def trimExampleTable : Table :=
  Table.mk ["a"] [[Cell.num 1], [Cell.na], [Cell.num 2], [Cell.na], [Cell.na],
    [Cell.num 3], [Cell.na], [Cell.na]]

/-! ### Claim C3 -/

/-- Claim C3: `shift_moment_minus_15_if_first15_last00` subtracts 15 minutes
from every value of the `moment` column exactly when the table is non-empty,
the first row's minute-of-hour equals 15 and the last row's minute-of-hour
equals 0; in every other case — the column absent, a non-datetime dtype, or
an invalid first/last value included — the table is returned unchanged. -/
theorem align_quarter_hour_offset_spec (f : Frame) (mcol : String) :
    shift_moment_minus_15_if_first15_last00 f mcol =
      if alignShiftCondition f mcol then subtractQuarterHour f mcol else f := by
  unfold shift_moment_minus_15_if_first15_last00 alignShiftCondition
    firstMinuteOfMoment lastMinuteOfMoment subtractQuarterHour
  by_cases hE : frameEmpty f
  · simp [hE]
  · simp only [hE, Bool.not_false, Bool.true_and]
    cases hL : f.lookup mcol with
    | none => simp
    | some s =>
      cases s with
      | strS cells => simp
      | numS cells => simp
      | dt cells =>
        cases h1 : cells.head? with
        | none => simp [h1]
        | some o1 =>
          cases o1 with
          | none => simp [h1]
          | some fv =>
            cases h2 : cells.getLast? with
            | none => simp [h1, h2]
            | some o2 =>
              cases o2 with
              | none => simp [h1, h2]
              | some lv =>
                simp only [h1, h2]
                by_cases hc : minuteOfTs fv = 15 ∧ minuteOfTs lv = 0
                · simp [hc.1, hc.2]
                · rcases Decidable.not_and_iff_or_not.mp hc with h | h <;>
                    simp [h]

/-! ### Claim C7 -/

/-- Claim C7: `keep_only_moment_and_consumption` projects onto exactly the
two requested columns, in order, when both are present, and otherwise fails
with a `KeyError` (the spec's `MissingColumnError`) naming exactly the
requested columns that are absent. -/
theorem reduce_to_spec (t : Table) (m c : String) :
    (m ∈ t.header → c ∈ t.header →
      keep_only_moment_and_consumption t m c =
        .ok ⟨[m, c],
             t.rows.map (fun r =>
               [r.getD (t.header.indexOf m) Cell.na,
                r.getD (t.header.indexOf c) Cell.na])⟩) ∧
    (¬(m ∈ t.header ∧ c ∈ t.header) →
      ∃ L, keep_only_moment_and_consumption t m c = .error L ∧ L ≠ [] ∧
        ∀ x, x ∈ L ↔ ((x = m ∨ x = c) ∧ x ∉ t.header)) := by
  unfold keep_only_moment_and_consumption
  dsimp only
  constructor
  · intro hm hc
    have hfil : [m, c].filter (fun x => !t.header.contains x) = [] := by
      simp [List.filter_eq_nil_iff, hm, hc]
    split
    · rfl
    · next hcond =>
      exact absurd (by rw [hfil]; rfl) hcond
  · intro h
    have hne : [m, c].filter (fun x => !t.header.contains x) ≠ [] := by
      intro hnil
      apply h
      rw [List.filter_eq_nil_iff] at hnil
      constructor
      · have hm := hnil m (by simp)
        simpa using hm
      · have hc := hnil c (by simp)
        simpa using hc
    refine ⟨[m, c].filter (fun x => !t.header.contains x), ?_, hne, ?_⟩
    · split
      · next hcond =>
        exact absurd (by simpa [List.isEmpty_iff] using hcond) hne
      · rfl
    · intro x
      simp [List.mem_filter]

/-! ### Claim C10 -/

/-- Claim C10: on a nominated date or hour column whose dtype is neither
datetime-like nor string/object (for instance a numeric column of integer
hours), `detect_date_dtype` and `normalize_hour_column` raise `TypeError`
instead of producing a normalized column; no normalized frame is produced. -/
theorem non_text_dtype_type_error (pdParse : String → Option Int) (f : Frame)
    (col : String) (cells : List (Option Int))
    (h : f.lookup col = some (.numS cells)) :
    detect_date_dtype pdParse f col = .error (.typeError col) ∧
    normalize_hour_column f col = .error (.typeError col) := by
  constructor
  · unfold detect_date_dtype
    simp [h]
  · unfold normalize_hour_column
    simp [h]

/-- Witness for C10 at a concrete numeric hour column. -/
theorem non_text_dtype_type_error_witness :
    detect_date_dtype (fun _ => none) [("hour", Series.numS [some 5])] "hour" =
      .error (.typeError "hour") ∧
    normalize_hour_column [("hour", Series.numS [some 5])] "hour" =
      .error (.typeError "hour") :=
  non_text_dtype_type_error (fun _ => none) [("hour", Series.numS [some 5])]
    "hour" [some 5] rfl

/-- Witness for C7: a table lacking only `consumption_kwh` fails naming
exactly that column. -/
theorem reduce_to_spec_witness :
    ("moment" ∈ (Table.mk ["moment", "x"] [[Cell.num 1, Cell.num 2]]).header ∧
      "consumption_kwh" ∉ (Table.mk ["moment", "x"] [[Cell.num 1, Cell.num 2]]).header) ∧
    ∃ L, keep_only_moment_and_consumption
        (Table.mk ["moment", "x"] [[Cell.num 1, Cell.num 2]]) "moment" "consumption_kwh" =
        .error L ∧ L ≠ [] ∧
      ∀ x, x ∈ L ↔ ((x = "moment" ∨ x = "consumption_kwh") ∧
        x ∉ (Table.mk ["moment", "x"] [[Cell.num 1, Cell.num 2]]).header) :=
  ⟨by decide,
   (reduce_to_spec (Table.mk ["moment", "x"] [[Cell.num 1, Cell.num 2]])
      "moment" "consumption_kwh").2 (by decide)⟩

/-! ### Claim C6 -/

/-- Claim C6: on a string/object date column, `detect_date_dtype` raises the
total-parse error (`ValueError`, the spec's `DateParseError`) exactly when
every non-missing value fails to parse and at least one non-missing value
exists; otherwise it succeeds and rewrites the column to canonical
`YYYY-MM-DD` strings, unparseable cells becoming invalid markers. -/
theorem normalize_date_total_failure_spec (pdParse : String → Option Int)
    (f : Frame) (col : String) (cells : List (Option String))
    (h : f.lookup col = some (.strS cells)) :
    (detect_date_dtype pdParse f col = .error (.dateParseError col) ↔
      ((∀ s, some s ∈ cells → pdParse s = none) ∧ ∃ s, some s ∈ cells)) ∧
    (¬((∀ s, some s ∈ cells → pdParse s = none) ∧ ∃ s, some s ∈ cells) →
      detect_date_dtype pdParse f col =
        .ok (setCol f col
          (.strS (cells.map (fun c => (c.bind pdParse).map formatTsDate))))) := by
  unfold detect_date_dtype
  rw [h]
  dsimp only
  have hcond : ((cells.map (fun c => c.bind pdParse)).all (fun p => p.isNone) &&
      cells.any (fun c => c.isSome)) = true ↔
      ((∀ s, some s ∈ cells → pdParse s = none) ∧ ∃ s, some s ∈ cells) := by
    rw [Bool.and_eq_true, List.all_eq_true, List.any_eq_true]
    constructor
    · rintro ⟨hall, c, hc, hsome⟩
      refine ⟨fun s hs' => ?_, ?_⟩
      · have hm : (some s).bind pdParse ∈ cells.map (fun c => c.bind pdParse) :=
          List.mem_map_of_mem _ hs'
        have := hall _ hm
        simpa [Option.isNone_iff_eq_none] using this
      · cases c with
        | none => simp at hsome
        | some s => exact ⟨s, hc⟩
    · rintro ⟨hall, s, hs⟩
      constructor
      · rintro p hp
        rw [List.mem_map] at hp
        obtain ⟨c, hc, rfl⟩ := hp
        cases c with
        | none => rfl
        | some s' => simp [Option.isNone_iff_eq_none, hall s' hc]
      · exact ⟨some s, hs, rfl⟩
  constructor
  · constructor
    · intro he
      by_cases hb : ((cells.map (fun c => c.bind pdParse)).all (fun p => p.isNone) &&
          cells.any (fun c => c.isSome)) = true
      · exact hcond.mp hb
      · rw [if_neg hb] at he
        exact absurd he (by simp)
    · intro hr
      rw [if_pos (hcond.mpr hr)]
  · intro hr
    have hb := (not_congr hcond).mpr hr
    rw [if_neg hb, List.map_map]
    rfl

/-- Witness for C6: a column whose single non-missing value is unparseable
raises the total-failure error under a parser that rejects everything. -/
theorem normalize_date_total_failure_spec_witness :
    detect_date_dtype (fun _ => none) [("d", Series.strS [some "xx", none])] "d" =
      .error (.dateParseError "d") :=
  (normalize_date_total_failure_spec (fun _ => none)
      [("d", Series.strS [some "xx", none])] "d" [some "xx", none] rfl).1.mpr
    ⟨fun _ _ => rfl, "xx", by decide⟩

/-! ### Claim C2 -/

/-- Claim C2: with the normalized date and hour columns present as string
columns, `create_moment_column` writes, under the requested output name, the
column obtained by concatenating date and hour with a single space and
parsing under the fixed format `YYYY-MM-DD HH:MM:SS` — a missing part makes
that row's `moment` invalid instead of raising — and returns the fraction of
rows that parsed successfully (0 for a zero-row table). -/
theorem create_moment_spec (f : Frame) (dateCol hourCol outCol : String)
    (ds hs : List (Option String))
    (hd : f.lookup dateCol = some (.strS ds)) (hh : f.lookup hourCol = some (.strS hs)) :
    create_moment_column f dateCol hourCol outCol =
      .ok (setCol f outCol (.dt (momentsOf ds hs)), successFraction (momentsOf ds hs)) := by
  unfold create_moment_column
  rw [hd, hh]
  rfl

/-- Witness for C2, the spec's round trip: date `"2024-01-01"` and hour
`"00:00:00"` in a one-row table produce `moment = 2024-01-01T00:00:00`
(seconds since epoch: `1704067200`) with success rate 1. -/
theorem create_moment_spec_witness :
    create_moment_column
        [("d", Series.strS [some "2024-01-01"]), ("h", Series.strS [some "00:00:00"])]
        "d" "h" "moment" =
      .ok ([("d", Series.strS [some "2024-01-01"]), ("h", Series.strS [some "00:00:00"]),
            ("moment", Series.dt [some 1704067200])], 1) ∧
    (1704067200 : Int) = mkTs 2024 1 1 0 0 0 := by
  constructor
  · rw [create_moment_spec
      [("d", Series.strS [some "2024-01-01"]), ("h", Series.strS [some "00:00:00"])]
      "d" "h" "moment" [some "2024-01-01"] [some "00:00:00"] rfl rfl]
    have hm : momentsOf [some "2024-01-01"] [some "00:00:00"] =
        [some (1704067200 : Int)] := by decide
    rw [hm]
    have h1 : setCol
        [("d", Series.strS [some "2024-01-01"]), ("h", Series.strS [some "00:00:00"])]
        "moment" (Series.dt [some (1704067200 : Int)]) =
        [("d", Series.strS [some "2024-01-01"]), ("h", Series.strS [some "00:00:00"]),
         ("moment", Series.dt [some 1704067200])] := by decide
    have h2 : successFraction [some (1704067200 : Int)] = 1 := by
      simp [successFraction, List.countP_cons]
    rw [h1, h2]
  · decide

/-! ### Claim C9 -/

/-- Characterization of `listStartsWith`. -/
theorem listStartsWith_iff (n h : List Char) :
    listStartsWith n h = true ↔ ∃ t, h = n ++ t := by
  induction n generalizing h with
  | nil => simp [listStartsWith]
  | cons a n ih =>
    cases h with
    | nil =>
      simp only [listStartsWith]
      constructor
      · intro hf; exact absurd hf (by simp)
      · rintro ⟨t, ht⟩; exact absurd ht (by simp)
    | cons b h' =>
      simp only [listStartsWith, Bool.and_eq_true, decide_eq_true_eq, ih]
      constructor
      · rintro ⟨rfl, t, rfl⟩; exact ⟨t, rfl⟩
      · rintro ⟨t, ht⟩
        injection ht with h1 h2
        exact ⟨h1.symm, t, h2⟩

/-- Characterization of the Python substring test `needle in hay`. -/
theorem containsSub_iff (n h : List Char) :
    containsSub n h = true ↔ ∃ pre post, h = pre ++ n ++ post := by
  unfold containsSub
  rw [List.any_eq_true]
  constructor
  · rintro ⟨i, _, hsw⟩
    obtain ⟨t, ht⟩ := (listStartsWith_iff n (h.drop i)).mp hsw
    exact ⟨h.take i, t, by rw [List.append_assoc, ← ht, List.take_append_drop]⟩
  · rintro ⟨pre, post, rfl⟩
    refine ⟨pre.length, ?_, ?_⟩
    · rw [List.mem_range]
      have : pre.length ≤ (pre ++ n ++ post).length := by
        simp [List.length_append]
      omega
    · rw [List.append_assoc, List.drop_left]
      exact (listStartsWith_iff n (n ++ post)).mpr ⟨post, rfl⟩

/-- Claim C9: `detect_time_columns` depends only on the column names (never
on cell values), returns exactly the names whose normalized form contains a
keyword of the fixed multilingual set, and preserves the source column
order (the result is a sublist of the header). -/
theorem detect_time_columns_spec :
    (∀ f g : Frame, f.map Prod.fst = g.map Prod.fst →
      detect_time_columns f = detect_time_columns g) ∧
    (∀ (f : Frame) (c : String),
      c ∈ detect_time_columns f ↔
        c ∈ f.map Prod.fst ∧ ∃ k ∈ TIME_KEYWORDS, ∃ pre post,
          (normName c).data = pre ++ k.data ++ post) ∧
    (∀ f : Frame, (detect_time_columns f).Sublist (f.map Prod.fst)) := by
  refine ⟨?_, ?_, ?_⟩
  · intro f g hfg
    unfold detect_time_columns
    rw [hfg]
  · intro f c
    unfold detect_time_columns
    rw [List.mem_filter]
    have hk : hasTimeKeyword c = true ↔
        ∃ k ∈ TIME_KEYWORDS, ∃ pre post, (normName c).data = pre ++ k.data ++ post := by
      unfold hasTimeKeyword
      rw [List.any_eq_true]
      constructor
      · rintro ⟨k, hkmem, hsub⟩
        exact ⟨k, hkmem, (containsSub_iff _ _).mp hsub⟩
      · rintro ⟨k, hkmem, hpre⟩
        exact ⟨k, hkmem, (containsSub_iff _ _).mpr hpre⟩
    rw [hk]
  · intro f
    exact List.filter_sublist _

/-- Witness for C9: a column literally named `"  Datum "` (normalizing to
`"datum"`) is detected whatever the cell values are. -/
theorem detect_time_columns_spec_witness :
    detect_time_columns [("  Datum ", Series.strS [some "not a date"])] =
      detect_time_columns [("  Datum ", Series.numS [some 3])] ∧
    "  Datum " ∈ detect_time_columns [("  Datum ", Series.strS [some "not a date"])] :=
  ⟨detect_time_columns_spec.1 _ _ rfl, by decide⟩

/-! ### Character-level lemmas for the hour-normalization pipeline -/

theorem digit_not_ws {c : Char} (h : c.isDigit = true) : c.isWhitespace = false := by
  by_contra hw
  rw [Bool.not_eq_false] at hw
  unfold Char.isWhitespace at hw
  simp only [Bool.or_eq_true, decide_eq_true_eq] at hw
  rcases hw with ((rfl | rfl) | rfl) | rfl <;> exact absurd h (by decide)

theorem digit_ne_colon {c : Char} (h : c.isDigit = true) : c ≠ ':' := by
  intro hc
  subst hc
  exact absurd h (by decide)

theorem dropWhile_eq_self_of_head {p : Char → Bool} {l : List Char}
    (h : ∀ c, l.head? = some c → p c = false) : l.dropWhile p = l := by
  cases l with
  | nil => rfl
  | cons x xs => simp [List.dropWhile_cons, h x rfl]

theorem stripWs_eq_self {cs : List Char} (h : ∀ c ∈ cs, c.isWhitespace = false) :
    stripWs cs = cs := by
  unfold stripWs
  have e1 : cs.dropWhile Char.isWhitespace = cs :=
    dropWhile_eq_self_of_head (fun c hc => h c (List.mem_of_mem_head? (Option.mem_def.mpr hc)))
  rw [e1]
  have e2 : cs.reverse.dropWhile Char.isWhitespace = cs.reverse :=
    dropWhile_eq_self_of_head (fun c hc =>
      h c (List.mem_reverse.mp (List.mem_of_mem_head? (Option.mem_def.mpr hc))))
  rw [e2, List.reverse_reverse]

theorem sepMap_eq_self {cs : List Char} (h : ∀ c ∈ cs, c.isDigit = true ∨ c = ':') :
    sepMap cs = cs := by
  induction cs with
  | nil => rfl
  | cons x xs ih =>
    have ihx := ih (fun c hc => h c (List.mem_cons_of_mem _ hc))
    unfold sepMap at ihx ⊢
    rw [List.map_cons, ihx]
    rcases h x (List.mem_cons_self _ _) with hd | hcol
    · simp [hd]
    · subst hcol
      simp

theorem collapseColons_cons_of_ne {c : Char} (rest : List Char) (h : c ≠ ':') :
    collapseColons (c :: rest) = c :: collapseColons rest := by
  cases rest with
  | nil => rfl
  | cons d r => simp [collapseColons, h]

theorem collapseColons_eq_self {cs : List Char} (h : ∀ c ∈ cs, c ≠ ':') :
    collapseColons cs = cs := by
  induction cs with
  | nil => rfl
  | cons x xs ih =>
    rw [collapseColons_cons_of_ne xs (h x (List.mem_cons_self _ _)),
      ih (fun c hc => h c (List.mem_cons_of_mem _ hc))]

theorem collapseColons_append {a : List Char} (d : List Char) (h : ∀ c ∈ a, c ≠ ':') :
    collapseColons (a ++ d) = a ++ collapseColons d := by
  induction a with
  | nil => rfl
  | cons x xs ih =>
    rw [List.cons_append, collapseColons_cons_of_ne _ (h x (List.mem_cons_self _ _)),
      ih (fun c hc => h c (List.mem_cons_of_mem _ hc)), List.cons_append]

theorem stripColons_eq_self {cs : List Char}
    (h1 : ∀ c, cs.head? = some c → c ≠ ':') (h2 : ∀ c, cs.getLast? = some c → c ≠ ':') :
    stripColons cs = cs := by
  unfold stripColons
  have e1 : cs.dropWhile (fun c => c = ':') = cs :=
    dropWhile_eq_self_of_head (fun c hc => by
      simp only [decide_eq_false_iff_not]
      exact h1 c hc)
  rw [e1]
  have e2 : cs.reverse.dropWhile (fun c => c = ':') = cs.reverse :=
    dropWhile_eq_self_of_head (fun c hc => by
      simp only [decide_eq_false_iff_not]
      rw [List.head?_reverse] at hc
      exact h2 c hc)
  rw [e2, List.reverse_reverse]

theorem splitOnChar_no_sep {sep : Char} {cs : List Char} (h : ∀ c ∈ cs, c ≠ sep) :
    splitOnChar sep cs = [cs] := by
  induction cs with
  | nil => rfl
  | cons x xs ih =>
    have ihx := ih (fun c hc => h c (List.mem_cons_of_mem _ hc))
    simp only [splitOnChar, ihx]
    simp [h x (List.mem_cons_self _ _)]

theorem splitOnChar_append {sep : Char} {a : List Char} (b : List Char)
    (h : ∀ c ∈ a, c ≠ sep) :
    splitOnChar sep (a ++ sep :: b) = a :: splitOnChar sep b := by
  induction a with
  | nil => simp [splitOnChar]
  | cons x xs ih =>
    have ihx := ih (fun c hc => h c (List.mem_cons_of_mem _ hc))
    rw [List.cons_append]
    simp only [splitOnChar, ihx]
    simp [h x (List.mem_cons_self _ _)]

theorem digitsToNat?_of_digits {cs : List Char} (h1 : cs ≠ [])
    (h2 : cs.all Char.isDigit = true) : digitsToNat? cs = some (natOfDigits cs) := by
  unfold digitsToNat?
  simp [h2, List.isEmpty_iff, h1]

theorem hmsFormat_digits {a b c : List Char} (ha1 : a ≠ []) (ha2 : a.all Char.isDigit = true)
    (hb1 : b ≠ []) (hb2 : b.all Char.isDigit = true)
    (hc1 : c ≠ []) (hc2 : c.all Char.isDigit = true) :
    hmsFormat a b c = specClock (natOfDigits a) (natOfDigits b) (natOfDigits c) := by
  unfold hmsFormat specClock
  rw [digitsToNat?_of_digits ha1 ha2, digitsToNat?_of_digits hb1 hb2,
    digitsToNat?_of_digits hc1 hc2]
  by_cases h : natOfDigits a ≤ 23 ∧ natOfDigits b ≤ 59 ∧ natOfDigits c ≤ 59
  · simp [h.1, h.2.1, h.2.2]
  · rw [if_neg h]
    rcases Decidable.not_and_iff_or_not.mp h with h' | h'
    · simp [h']
    · rcases Decidable.not_and_iff_or_not.mp h' with h'' | h'' <;> simp [h'']

theorem mem_of_getLast?_char {l : List Char} {a : Char} (h : l.getLast? = some a) : a ∈ l := by
  rw [← List.head?_reverse] at h
  exact List.mem_reverse.mp (List.mem_of_mem_head? (Option.mem_def.mpr h))

theorem collapseColons_colon_cons {b : List Char} (hb : b ≠ [])
    (hh : ∀ c, b.head? = some c → c ≠ ':') :
    collapseColons (':' :: b) = ':' :: collapseColons b := by
  cases b with
  | nil => exact absurd rfl hb
  | cons y ys => simp [collapseColons, hh y rfl]

/-- On a pure digit run, `_to_hhmmss` reaches the no-separator length
dispatch unchanged. -/
theorem toHHMMSSCore_digit_run {ds : List Char} (h1 : ds ≠ [])
    (h2 : ds.all Char.isDigit = true) :
    toHHMMSSCore ds =
      (if ds.length = 6 then hmsFormat (ds.take 2) ((ds.drop 2).take 2) (ds.drop 4)
       else if ds.length = 4 then hmsFormat (ds.take 2) (ds.drop 2) ['0', '0']
       else if ds.length = 3 then hmsFormat (ds.take 1) (ds.drop 1) ['0', '0']
       else if ds.length = 2 || ds.length = 1 then hmsFormat ds ['0', '0'] ['0', '0']
       else none) := by
  have hdig : ∀ c ∈ ds, c.isDigit = true := List.all_eq_true.mp h2
  have hnc : ∀ c ∈ ds, c ≠ ':' := fun c hc => digit_ne_colon (hdig c hc)
  have hie : ds.isEmpty = false := by
    cases ds with
    | nil => exact absurd rfl h1
    | cons x xs => rfl
  have hco : ds.contains ':' = false := by
    by_contra hcon
    rw [Bool.not_eq_false] at hcon
    exact absurd rfl (hnc ':' (List.elem_iff.mp hcon))
  unfold toHHMMSSCore
  dsimp only
  rw [stripWs_eq_self (fun c hc => digit_not_ws (hdig c hc))]
  rw [sepMap_eq_self (fun c hc => Or.inl (hdig c hc))]
  rw [collapseColons_eq_self hnc]
  rw [stripColons_eq_self
    (fun c hc => hnc c (List.mem_of_mem_head? (Option.mem_def.mpr hc)))
    (fun c hc => hnc c (mem_of_getLast?_char hc))]
  rw [hie, hco]
  simp [hie, h2]

/-- With one surviving separator between two digit runs, `_to_hhmmss`
reaches the two-part branch with those runs. -/
theorem toHHMMSSCore_two_parts {a b : List Char} (ha1 : a ≠ []) (hb1 : b ≠ [])
    (ha2 : a.all Char.isDigit = true) (hb2 : b.all Char.isDigit = true) :
    toHHMMSSCore (a ++ ':' :: b) = hmsFormat a b ['0', '0'] := by
  have hadig : ∀ c ∈ a, c.isDigit = true := List.all_eq_true.mp ha2
  have hbdig : ∀ c ∈ b, c.isDigit = true := List.all_eq_true.mp hb2
  have hmem : ∀ c ∈ a ++ ':' :: b, c.isDigit = true ∨ c = ':' := by
    intro c hc
    rcases List.mem_append.mp hc with hc | hc
    · exact Or.inl (hadig c hc)
    · rcases List.mem_cons.mp hc with rfl | hc
      · exact Or.inr rfl
      · exact Or.inl (hbdig c hc)
  unfold toHHMMSSCore
  dsimp only
  rw [stripWs_eq_self (fun c hc => by
    rcases hmem c hc with hd | rfl
    · exact digit_not_ws hd
    · decide)]
  rw [sepMap_eq_self hmem]
  rw [collapseColons_append (':' :: b) (fun c hc => digit_ne_colon (hadig c hc))]
  rw [collapseColons_colon_cons hb1
    (fun c hc => digit_ne_colon (hbdig c (List.mem_of_mem_head? (Option.mem_def.mpr hc))))]
  rw [collapseColons_eq_self (fun c hc => digit_ne_colon (hbdig c hc))]
  rw [stripColons_eq_self
    (fun c hc => by
      cases a with
      | nil => exact absurd rfl ha1
      | cons x xs =>
        simp only [List.cons_append, List.head?_cons, Option.some.injEq] at hc
        cases hc
        exact digit_ne_colon (hadig _ (List.mem_cons_self _ _)))
    (fun c hc => by
      rw [List.getLast?_append] at hc
      rw [List.getLast?_cons] at hc
      rcases hb : b.getLast? with _ | y
      · rw [hb] at hc
        simp at hc
        subst hc
        exact absurd hb (by
          cases b with
          | nil => exact absurd rfl hb1
          | cons z zs => simp [List.getLast?_cons])
      · rw [hb] at hc
        simp at hc
        subst hc
        exact digit_ne_colon (hbdig _ (mem_of_getLast?_char hb)))]
  have hco : (a ++ ':' :: b).contains ':' = true := by
    rw [List.elem_iff]
    exact List.mem_append.mpr (Or.inr (List.mem_cons_self _ _))
  have hie : (a ++ ':' :: b).isEmpty = false := by
    cases a <;> rfl
  rw [hie, hco]
  rw [splitOnChar_append b (fun c hc => digit_ne_colon (hadig c hc))]
  rw [splitOnChar_no_sep (fun c hc => digit_ne_colon (hbdig c hc))]
  simp

theorem getLast?_append_cons_char (l1 : List Char) (x : Char) (l2 : List Char) :
    (l1 ++ x :: l2).getLast? = (x :: l2).getLast? := by
  obtain ⟨y, hy⟩ := Option.isSome_iff_exists.mp
    (List.getLast?_isSome.mpr (by simp : (x :: l2) ≠ ([] : List Char)))
  rw [List.getLast?_append, hy]
  rfl

theorem getLast?_cons_of_ne_nil {x : Char} {l : List Char} (h : l ≠ []) :
    (x :: l).getLast? = l.getLast? := by
  cases l with
  | nil => exact absurd rfl h
  | cons z zs => exact List.getLast?_cons_cons

/-- With two surviving separators between three digit runs, `_to_hhmmss`
reaches the three-part branch with those runs (further parts would be
ignored by the code). -/
theorem toHHMMSSCore_three_parts {a b c : List Char}
    (ha1 : a ≠ []) (hb1 : b ≠ []) (hc1 : c ≠ [])
    (ha2 : a.all Char.isDigit = true) (hb2 : b.all Char.isDigit = true)
    (hc2 : c.all Char.isDigit = true) :
    toHHMMSSCore (a ++ ':' :: (b ++ ':' :: c)) = hmsFormat a b c := by
  have hadig : ∀ x ∈ a, x.isDigit = true := List.all_eq_true.mp ha2
  have hbdig : ∀ x ∈ b, x.isDigit = true := List.all_eq_true.mp hb2
  have hcdig : ∀ x ∈ c, x.isDigit = true := List.all_eq_true.mp hc2
  have hmem : ∀ x ∈ a ++ ':' :: (b ++ ':' :: c), x.isDigit = true ∨ x = ':' := by
    intro x hx
    rcases List.mem_append.mp hx with hx | hx
    · exact Or.inl (hadig x hx)
    · rcases List.mem_cons.mp hx with rfl | hx
      · exact Or.inr rfl
      · rcases List.mem_append.mp hx with hx | hx
        · exact Or.inl (hbdig x hx)
        · rcases List.mem_cons.mp hx with rfl | hx
          · exact Or.inr rfl
          · exact Or.inl (hcdig x hx)
  have hbc1 : b ++ ':' :: c ≠ [] := by simp
  unfold toHHMMSSCore
  dsimp only
  rw [stripWs_eq_self (fun x hx => by
    rcases hmem x hx with hd | rfl
    · exact digit_not_ws hd
    · decide)]
  rw [sepMap_eq_self hmem]
  rw [collapseColons_append (':' :: (b ++ ':' :: c))
    (fun x hx => digit_ne_colon (hadig x hx))]
  rw [collapseColons_colon_cons hbc1 (fun x hx => by
    cases b with
    | nil => exact absurd rfl hb1
    | cons y ys =>
      simp only [List.cons_append, List.head?_cons, Option.some.injEq] at hx
      cases hx
      exact digit_ne_colon (hbdig _ (List.mem_cons_self _ _)))]
  rw [collapseColons_append (':' :: c) (fun x hx => digit_ne_colon (hbdig x hx))]
  rw [collapseColons_colon_cons hc1 (fun x hx =>
    digit_ne_colon (hcdig x (List.mem_of_mem_head? (Option.mem_def.mpr hx))))]
  rw [collapseColons_eq_self (fun x hx => digit_ne_colon (hcdig x hx))]
  rw [stripColons_eq_self
    (fun x hx => by
      cases a with
      | nil => exact absurd rfl ha1
      | cons z zs =>
        simp only [List.cons_append, List.head?_cons, Option.some.injEq] at hx
        cases hx
        exact digit_ne_colon (hadig _ (List.mem_cons_self _ _)))
    (fun x hx => by
      rw [getLast?_append_cons_char, getLast?_cons_of_ne_nil hbc1,
        getLast?_append_cons_char, getLast?_cons_of_ne_nil hc1] at hx
      exact digit_ne_colon (hcdig x (mem_of_getLast?_char hx)))]
  have hco : (a ++ ':' :: (b ++ ':' :: c)).contains ':' = true := by
    rw [List.elem_iff]
    exact List.mem_append.mpr (Or.inr (List.mem_cons_self _ _))
  have hie : (a ++ ':' :: (b ++ ':' :: c)).isEmpty = false := by
    cases a <;> rfl
  rw [hie, hco]
  rw [splitOnChar_append (b ++ ':' :: c) (fun x hx => digit_ne_colon (hadig x hx))]
  rw [splitOnChar_append c (fun x hx => digit_ne_colon (hbdig x hx))]
  rw [splitOnChar_no_sep (fun x hx => digit_ne_colon (hcdig x hx))]
  simp

/-! ### Claim C1 -/

/-- Claim C1: `normalize_hour_column` applies the cell-level rule table to
every text cell of the hour column: after normalizing the non-digit
characters to a single separator, a pure digit run of length 6 reads as
`HHMMSS`, length 4 as `HHMM` (seconds 00), length 3 as one hour digit plus
two minute digits (seconds 00), length 1-2 as the hour alone; with a
surviving separator, two parts read `H:M` (seconds 00) and three parts
`H:M:S`; out-of-range parts produce the invalid marker (`specClock`), never
clamped values; and the spec's example table evaluates exactly as stated. -/
theorem normalize_hour_rule_table :
    (∀ (f : Frame) (hourCol : String) (cells : List (Option String)),
      f.lookup hourCol = some (.strS cells) →
      normalize_hour_column f hourCol = .ok (setCol f hourCol (.strS (cells.map toHHMMSS)))) ∧
    (∀ ds : List Char, ds.all Char.isDigit = true →
      (ds.length = 6 → toHHMMSS (some (String.mk ds)) =
        specClock (natOfDigits (ds.take 2)) (natOfDigits ((ds.drop 2).take 2))
          (natOfDigits (ds.drop 4))) ∧
      (ds.length = 4 → toHHMMSS (some (String.mk ds)) =
        specClock (natOfDigits (ds.take 2)) (natOfDigits (ds.drop 2)) 0) ∧
      (ds.length = 3 → toHHMMSS (some (String.mk ds)) =
        specClock (natOfDigits (ds.take 1)) (natOfDigits (ds.drop 1)) 0) ∧
      (ds.length = 1 ∨ ds.length = 2 → toHHMMSS (some (String.mk ds)) =
        specClock (natOfDigits ds) 0 0)) ∧
    (∀ a b : List Char, a ≠ [] → b ≠ [] →
      a.all Char.isDigit = true → b.all Char.isDigit = true →
      toHHMMSS (some (String.mk (a ++ ':' :: b))) =
        specClock (natOfDigits a) (natOfDigits b) 0) ∧
    (∀ a b c : List Char, a ≠ [] → b ≠ [] → c ≠ [] →
      a.all Char.isDigit = true → b.all Char.isDigit = true → c.all Char.isDigit = true →
      toHHMMSS (some (String.mk (a ++ ':' :: (b ++ ':' :: c)))) =
        specClock (natOfDigits a) (natOfDigits b) (natOfDigits c)) ∧
    (toHHMMSS (some "093000") = some "09:30:00" ∧ toHHMMSS (some "0930") = some "09:30:00" ∧
     toHHMMSS (some "930") = some "09:30:00" ∧ toHHMMSS (some "9") = some "09:00:00" ∧
     toHHMMSS (some "9:30") = some "09:30:00" ∧ toHHMMSS (some "25:00") = none ∧
     toHHMMSS (some "") = none ∧ toHHMMSS none = none) := by
  refine ⟨?_, ?_, ?_, ?_, ?_⟩
  · intro f hourCol cells h
    unfold normalize_hour_column
    rw [h]
  · intro ds h2
    have hne : ∀ {l : List Char}, 0 < l.length → l ≠ [] := by
      intro l hl hnil
      subst hnil
      simp at hl
    have htk : ∀ (l : List Char), l.all Char.isDigit = true →
        ∀ n : Nat, (l.take n).all Char.isDigit = true := by
      intro l hl n
      rw [List.all_eq_true] at hl ⊢
      exact fun x hx => hl x (List.mem_of_mem_take hx)
    have hdr : ∀ (l : List Char), l.all Char.isDigit = true →
        ∀ n : Nat, (l.drop n).all Char.isDigit = true := by
      intro l hl n
      rw [List.all_eq_true] at hl ⊢
      exact fun x hx => hl x (List.mem_of_mem_drop hx)
    refine ⟨?_, ?_, ?_, ?_⟩
    · intro h6
      rw [show toHHMMSS (some (String.mk ds)) = toHHMMSSCore ds from rfl,
        toHHMMSSCore_digit_run (hne (by omega)) h2, if_pos h6]
      exact hmsFormat_digits
        (hne (by rw [List.length_take]; omega)) (htk ds h2 2)
        (hne (by rw [List.length_take, List.length_drop]; omega)) (htk _ (hdr ds h2 2) 2)
        (hne (by rw [List.length_drop]; omega)) (hdr ds h2 4)
    · intro h4
      rw [show toHHMMSS (some (String.mk ds)) = toHHMMSSCore ds from rfl,
        toHHMMSSCore_digit_run (hne (by omega)) h2, if_neg (by omega), if_pos h4]
      exact hmsFormat_digits
        (hne (by rw [List.length_take]; omega)) (htk ds h2 2)
        (hne (by rw [List.length_drop]; omega)) (hdr ds h2 2)
        (by decide) (by decide)
    · intro h3
      rw [show toHHMMSS (some (String.mk ds)) = toHHMMSSCore ds from rfl,
        toHHMMSSCore_digit_run (hne (by omega)) h2, if_neg (by omega), if_neg (by omega),
        if_pos h3]
      exact hmsFormat_digits
        (hne (by rw [List.length_take]; omega)) (htk ds h2 1)
        (hne (by rw [List.length_drop]; omega)) (hdr ds h2 1)
        (by decide) (by decide)
    · intro h12
      rw [show toHHMMSS (some (String.mk ds)) = toHHMMSSCore ds from rfl,
        toHHMMSSCore_digit_run (hne (by omega)) h2, if_neg (by omega), if_neg (by omega),
        if_neg (by omega), if_pos (by rcases h12 with h | h <;> simp [h])]
      exact hmsFormat_digits (hne (by omega)) h2 (by decide) (by decide) (by decide) (by decide)
  · intro a b ha1 hb1 ha2 hb2
    rw [show toHHMMSS (some (String.mk (a ++ ':' :: b))) = toHHMMSSCore (a ++ ':' :: b)
        from rfl,
      toHHMMSSCore_two_parts ha1 hb1 ha2 hb2]
    exact hmsFormat_digits ha1 ha2 hb1 hb2 (by decide) (by decide)
  · intro a b c ha1 hb1 hc1 ha2 hb2 hc2
    rw [show toHHMMSS (some (String.mk (a ++ ':' :: (b ++ ':' :: c)))) =
        toHHMMSSCore (a ++ ':' :: (b ++ ':' :: c)) from rfl,
      toHHMMSSCore_three_parts ha1 hb1 hc1 ha2 hb2 hc2]
    exact hmsFormat_digits ha1 ha2 hb1 hb2 hc1 hc2
  · exact ⟨by decide, by decide, by decide, by decide, by decide, by decide, by decide, rfl⟩

/-- Witness for C1: the column-level form and two cells of the spec's rule
table on a concrete hour column. -/
theorem normalize_hour_rule_table_witness :
    normalize_hour_column [("hour", Series.strS [some "930", some "25:00"])] "hour" =
      .ok [("hour", Series.strS [some "09:30:00", none])] ∧
    specClock 9 30 0 = some "09:30:00" := by
  constructor
  · rw [normalize_hour_rule_table.1 [("hour", Series.strS [some "930", some "25:00"])]
      "hour" [some "930", some "25:00"] rfl]
    decide
  · decide

/-! ### List toolkit for the structural table proofs -/

theorem map_eq_self_of {α : Type} {l : List α} {f : α → α} (h : ∀ x ∈ l, f x = x) :
    l.map f = l := by
  induction l with
  | nil => rfl
  | cons x xs ih =>
    rw [List.map_cons, h x (List.mem_cons_self _ _),
      ih (fun y hy => h y (List.mem_cons_of_mem _ hy))]

theorem all_map_general {α β : Type} (l : List α) (f : α → β) (p : β → Bool) :
    (l.map f).all p = l.all (fun x => p (f x)) := by
  induction l with
  | nil => rfl
  | cons x xs ih => simp [ih]

theorem all_congr_general {α : Type} {l : List α} {p q : α → Bool}
    (h : ∀ x ∈ l, p x = q x) : l.all p = l.all q := by
  induction l with
  | nil => rfl
  | cons x xs ih =>
    simp only [List.all_cons]
    rw [h x (List.mem_cons_self _ _), ih (fun y hy => h y (List.mem_cons_of_mem _ hy))]

theorem getD_map_lt {α β : Type} (f : α → β) {l : List α} {i : Nat} (d : β) (d' : α)
    (h : i < l.length) : (l.map f).getD i d = f (l.getD i d') := by
  rw [List.getD_eq_getElem?_getD, List.getD_eq_getElem?_getD, List.getElem?_map,
    List.getElem?_eq_getElem h]
  simp

theorem getD_mem_of_lt {α : Type} {l : List α} {i : Nat} (d : α) (h : i < l.length) :
    l.getD i d ∈ l := by
  rw [List.getD_eq_getElem?_getD, List.getElem?_eq_getElem h]
  exact List.getElem_mem _

theorem map_getD_range {α : Type} (l : List α) (d : α) :
    (List.range l.length).map (fun j => l.getD j d) = l := by
  induction l with
  | nil => rfl
  | cons x xs ih =>
    have hcomp : ((fun j => (x :: xs).getD j d) ∘ Nat.succ) = (fun j => xs.getD j d) := by
      funext j
      simp [Function.comp]
    rw [List.length_cons, List.range_succ_eq_map, List.map_cons, List.map_map, hcomp, ih]
    rfl

theorem range_filter_comp {α : Type} (l : List α) (q : α → Bool) (d : α) :
    ((List.range l.length).filter (fun j => q (l.getD j d))).map (fun j => l.getD j d) =
      l.filter q := by
  induction l with
  | nil => rfl
  | cons x xs ih =>
    have hcomp : ((fun j => q ((x :: xs).getD j d)) ∘ Nat.succ) =
        (fun j => q (xs.getD j d)) := by
      funext j
      simp [Function.comp]
    have hcomp2 : ((fun j => (x :: xs).getD j d) ∘ Nat.succ) = (fun j => xs.getD j d) := by
      funext j
      simp [Function.comp]
    rw [List.length_cons, List.range_succ_eq_map, List.filter_cons]
    simp only [List.getD_cons_zero]
    rw [List.filter_map, hcomp, List.filter_cons]
    by_cases hx : q x = true
    · rw [if_pos hx, if_pos hx, List.map_cons, List.map_map, hcomp2, ih]
      rfl
    · rw [if_neg hx, if_neg hx, List.map_map, hcomp2, ih]

theorem filter_range_getLast?_none {p : Nat → Bool} {n : Nat} :
    ((List.range n).filter p).getLast? = none ↔ ∀ i, i < n → p i = false := by
  induction n with
  | zero => simp
  | succ m ih =>
    rw [List.range_succ, List.filter_append]
    by_cases hp : p m = true
    · rw [show List.filter p [m] = [m] by simp [hp]]
      constructor
      · intro h
        rw [List.getLast?_concat] at h
        exact absurd h (by simp)
      · intro h
        exact absurd hp (by simp [h m (by omega)])
    · rw [show List.filter p [m] = [] by simp [hp], List.append_nil, ih]
      constructor
      · intro h i hi
        by_cases him : i = m
        · subst him
          exact Bool.not_eq_true _ ▸ (by simpa using hp)
        · exact h i (by omega)
      · intro h i hi
        exact h i (by omega)

theorem filter_range_getLast?_some {p : Nat → Bool} {n k : Nat}
    (h : ((List.range n).filter p).getLast? = some k) :
    k < n ∧ p k = true ∧ ∀ i, i < n → p i = true → i ≤ k := by
  induction n generalizing k with
  | zero => simp at h
  | succ m ih =>
    rw [List.range_succ, List.filter_append] at h
    by_cases hp : p m = true
    · rw [show List.filter p [m] = [m] by simp [hp], List.getLast?_concat] at h
      injection h with h
      subst h
      exact ⟨by omega, hp, fun i hi _ => by omega⟩
    · rw [show List.filter p [m] = [] by simp [hp], List.append_nil] at h
      obtain ⟨hk, hpk, hmax⟩ := ih h
      refine ⟨by omega, hpk, fun i hi hpi => ?_⟩
      by_cases him : i = m
      · subst him
        exact absurd hpi hp
      · exact hmax i (by omega) hpi

/-! ### Characterization of `drop_trailing_empty_rows` -/

theorem trim_header_and_sub (t : Table) :
    (drop_trailing_empty_rows t).header = t.header ∧
    ∀ r ∈ (drop_trailing_empty_rows t).rows, r ∈ t.rows := by
  unfold drop_trailing_empty_rows
  dsimp only
  by_cases he : t.isEmptyDf = true
  · rw [if_pos he]
    exact ⟨rfl, fun r hr => hr⟩
  · rw [if_neg he]
    by_cases hany : ((t.rows.map (fun r => r.all cellIsEmpty)).any id) = true
    · rw [if_pos hany]
      cases hL : ((List.range t.rows.length).filter
          (fun i => !(t.rows.map (fun r => r.all cellIsEmpty)).getD i true)).getLast? with
      | none => exact ⟨rfl, fun r hr => by simp at hr⟩
      | some k => exact ⟨rfl, fun r hr => List.mem_of_mem_take hr⟩
    · rw [if_neg hany]
      exact ⟨rfl, fun r hr => hr⟩

theorem trim_spec (t : Table) (hc : t.header.length ≠ 0) :
    (drop_trailing_empty_rows t).header = t.header ∧
    (drop_trailing_empty_rows t).rows =
      t.rows.take (drop_trailing_empty_rows t).rows.length ∧
    (∀ i, (drop_trailing_empty_rows t).rows.length ≤ i → i < t.rows.length →
      (t.rows.getD i []).all cellIsEmpty = true) ∧
    ((drop_trailing_empty_rows t).rows.length = 0 ∨
      (t.rows.getD ((drop_trailing_empty_rows t).rows.length - 1) []).all cellIsEmpty
        = false) := by
  obtain ⟨hdr, rows⟩ := t
  have hhe : hdr.isEmpty = false := by
    cases hdr with
    | nil => simp at hc
    | cons a l => rfl
  have hfc : (List.range rows.length).filter
      (fun i => !(rows.map (fun r => r.all cellIsEmpty)).getD i true) =
      (List.range rows.length).filter
        (fun i => !(rows.getD i []).all cellIsEmpty) :=
    List.filter_congr (fun i hi => by
      rw [List.mem_range] at hi
      rw [getD_map_lt (fun r => r.all cellIsEmpty) true [] hi])
  unfold drop_trailing_empty_rows
  dsimp only
  simp only [Table.isEmptyDf, hhe, Bool.or_false]
  cases rows with
  | nil =>
    simp only [List.isEmpty_nil, if_true]
    exact ⟨by simp, by simp, fun i h1 h2 => by simp at h2, Or.inl (by simp)⟩
  | cons r rs =>
    simp only [List.isEmpty_cons, Bool.false_eq_true, if_false]
    by_cases hany : (((r :: rs).map (fun row => row.all cellIsEmpty)).any id) = true
    · rw [if_pos hany, hfc]
      cases hL : ((List.range (r :: rs).length).filter
          (fun i => !((r :: rs).getD i []).all cellIsEmpty)).getLast? with
      | none =>
        have hall := filter_range_getLast?_none.mp hL
        refine ⟨rfl, by simp, fun i h1 h2 => ?_, Or.inl rfl⟩
        have := hall i h2
        simpa using this
      | some k =>
        obtain ⟨hk, hpk, hmax⟩ := filter_range_getLast?_some hL
        have hlen : ((r :: rs).take (k + 1)).length = k + 1 := by
          rw [List.length_take]
          omega
        refine ⟨rfl, ?_, ?_, ?_⟩
        · rw [hlen]
        · intro i h1 h2
          rw [hlen] at h1
          have h2' : i < (r :: rs).length := h2
          by_contra hne
          have hp : (!((r :: rs).getD i []).all cellIsEmpty) = true := by
            simp only [Bool.not_eq_true']
            exact (Bool.not_eq_true _).mp hne
          have := hmax i h2' hp
          omega
        · refine Or.inr ?_
          rw [hlen]
          simpa using hpk
    · rw [if_neg hany]
      have hnone : ∀ row ∈ r :: rs, row.all cellIsEmpty = false := by
        intro row hrow
        by_contra hne
        have : ((r :: rs).map (fun row => row.all cellIsEmpty)).any id = true := by
          rw [List.any_eq_true]
          exact ⟨true, by
            rw [List.mem_map]
            exact ⟨row, hrow, by simpa using (Bool.not_eq_false _).mp hne⟩, rfl⟩
        exact absurd this hany
      refine ⟨rfl, by rw [List.take_length],
        fun i h1 h2 => by
          have h1' : (r :: rs).length ≤ i := h1
          omega,
        Or.inr ?_⟩
      exact hnone _ (getD_mem_of_lt [] (by simp))

/-! ### Claim C4 -/

/-- Counterexample to C4 as stated: a zero-column table with three rows.
Every row is trivially empty (it has no non-empty cell), so the claim
requires an empty result with zero rows; but such a table is `.empty` in
pandas, so `drop_trailing_empty_rows` returns it unchanged with 3 rows. -/
theorem trim_trailing_zero_column_cex :
    drop_trailing_empty_rows (Table.mk [] [[], [], []]) = Table.mk [] [[], [], []] ∧
    (Table.mk [] [[], [], []]).rows.all (fun r => r.all cellIsEmpty) = true ∧
    (drop_trailing_empty_rows (Table.mk [] [[], [], []])).rows.length = 3 := by
  decide

/-- Claim C4 (amended: restricted to tables with at least one column; a
zero-column table is pandas-`empty` and is returned unchanged):
`drop_trailing_empty_rows` keeps exactly the prefix of rows up to the
highest row index containing a non-empty cell — the result is a prefix of
the rows, every dropped row is entirely empty, and the last kept row is
non-empty (or nothing is kept when no non-empty row exists). -/
theorem trim_trailing_spec (t : Table) (hc : 0 < t.header.length) :
    (drop_trailing_empty_rows t).header = t.header ∧
    (drop_trailing_empty_rows t).rows =
      t.rows.take (drop_trailing_empty_rows t).rows.length ∧
    (∀ i, (drop_trailing_empty_rows t).rows.length ≤ i → i < t.rows.length →
      (t.rows.getD i []).all cellIsEmpty = true) ∧
    ((drop_trailing_empty_rows t).rows.length = 0 ∨
      (t.rows.getD ((drop_trailing_empty_rows t).rows.length - 1) []).all cellIsEmpty
        = false) :=
  trim_spec t (by omega)

/-- Witness for C4 at the spec's example: 8 rows with non-empty rows at
positions {0, 2, 5} trim to exactly 6 rows, interior empty rows kept. -/
theorem trim_trailing_spec_witness :
    0 < trimExampleTable.header.length ∧
    ((drop_trailing_empty_rows trimExampleTable).header = trimExampleTable.header ∧
     (drop_trailing_empty_rows trimExampleTable).rows =
       trimExampleTable.rows.take (drop_trailing_empty_rows trimExampleTable).rows.length ∧
     (∀ i, (drop_trailing_empty_rows trimExampleTable).rows.length ≤ i →
       i < trimExampleTable.rows.length →
       (trimExampleTable.rows.getD i []).all cellIsEmpty = true) ∧
     ((drop_trailing_empty_rows trimExampleTable).rows.length = 0 ∨
       (trimExampleTable.rows.getD
         ((drop_trailing_empty_rows trimExampleTable).rows.length - 1) []).all cellIsEmpty
         = false)) ∧
    (drop_trailing_empty_rows trimExampleTable).rows.length = 6 :=
  ⟨by decide, trim_trailing_spec trimExampleTable (by decide), by decide⟩

/-! ### Column selection lemmas -/

theorem isna_imp_empty {x : Cell} (h : x.isna = true) : cellIsEmpty x = true := by
  cases x with
  | na => rfl
  | str s => simp [Cell.isna] at h
  | num v => simp [Cell.isna] at h

theorem not_empty_imp_not_na {x : Cell} (h : cellIsEmpty x = false) : x.isna = false := by
  cases x with
  | na => simp [cellIsEmpty] at h
  | str s => rfl
  | num v => rfl

theorem colAllNA_imp_allEmpty (t : Table) (j : Nat) (h : colIsAllNA t j = true) :
    colIsAllEmpty t j = true := by
  unfold colIsAllNA at h
  unfold colIsAllEmpty
  rw [List.all_eq_true] at h ⊢
  exact fun r hr => isna_imp_empty (h r hr)

theorem selectCols_header_length (t : Table) (idxs : List Nat) :
    (selectCols t idxs).header.length = idxs.length := by
  simp [selectCols]

theorem selectCols_rect (t : Table) (idxs : List Nat) : (selectCols t idxs).Rect := by
  intro r hr
  simp only [selectCols, List.mem_map] at hr
  obtain ⟨r0, _, rfl⟩ := hr
  simp [selectCols]

theorem colIsAllEmpty_selectCols {t : Table} {A : List Nat} {j : Nat} (h : j < A.length) :
    colIsAllEmpty (selectCols t A) j = colIsAllEmpty t (A.getD j 0) := by
  unfold colIsAllEmpty selectCols
  rw [all_map_general]
  exact all_congr_general (fun r _ => by
    rw [getD_map_lt (fun jj => r.getD jj Cell.na) Cell.na 0 h])

theorem selectCols_selectCols {t : Table} {A B : List Nat} (hB : ∀ j ∈ B, j < A.length) :
    selectCols (selectCols t A) B = selectCols t (B.map (fun j => A.getD j 0)) := by
  unfold selectCols
  congr 1
  · rw [List.map_map]
    exact List.map_congr_left (fun j hj => by
      rw [getD_map_lt (fun jj => t.header.getD jj "") "" 0 (hB j hj)]
      rfl)
  · rw [List.map_map]
    exact List.map_congr_left (fun r _ => by
      rw [List.map_map]
      exact List.map_congr_left (fun j hj => by
        rw [getD_map_lt (fun jj => r.getD jj Cell.na) Cell.na 0 (hB j hj)]
        rfl))

theorem selectCols_range (t : Table) (hrect : t.Rect) :
    selectCols t (List.range t.ncols) = t := by
  unfold selectCols
  obtain ⟨hdr, rows⟩ := t
  congr 1
  · exact map_getD_range hdr ""
  · refine map_eq_self_of (fun r hr => ?_)
    have hlen : r.length = hdr.length := hrect r hr
    rw [show (Table.mk hdr rows).ncols = r.length from hlen.symm]
    exact map_getD_range r Cell.na

/-- The two column-removal steps of `clean_table` — `dropna(axis=1, "all")`
followed by `drop_empty_columns` — together remove exactly the columns that
are empty in every cell under the uniform emptiness predicate. -/
theorem column_stage_eq (t : Table) :
    drop_empty_columns (dropnaAllCols t) = uniformDropEmptyCols t := by
  by_cases hrows : t.rows = []
  · have hA : (List.range t.ncols).filter (fun j => !colIsAllNA t j) = [] := by
      rw [List.filter_eq_nil_iff]
      intro j _
      simp [colIsAllNA, hrows]
    have hG : (List.range t.ncols).filter (fun j => !colIsAllEmpty t j) = [] := by
      rw [List.filter_eq_nil_iff]
      intro j _
      simp [colIsAllEmpty, hrows]
    unfold dropnaAllCols uniformDropEmptyCols
    rw [hA, hG]
    unfold drop_empty_columns
    rw [if_pos (by simp [selectCols, Table.isEmptyDf])]
  · by_cases hAnil : (List.range t.ncols).filter (fun j => !colIsAllNA t j) = []
    · have hG : (List.range t.ncols).filter (fun j => !colIsAllEmpty t j) = [] := by
        rw [List.filter_eq_nil_iff] at hAnil ⊢
        intro j hj
        have hnaj := hAnil j hj
        have hna : colIsAllNA t j = true := by
          by_contra hcon
          rw [Bool.not_eq_true] at hcon
          exact hnaj (by simp [hcon])
        simp [colAllNA_imp_allEmpty t j hna]
      unfold dropnaAllCols uniformDropEmptyCols
      rw [hAnil, hG]
      unfold drop_empty_columns
      rw [if_pos (by simp [selectCols, Table.isEmptyDf])]
    · have hAbound : ∀ j ∈ (List.range t.ncols).filter (fun j => !colIsAllNA t j),
          j < t.ncols := fun j hj => List.mem_range.mp (List.mem_filter.mp hj).1
      have hncols : (selectCols t ((List.range t.ncols).filter (fun j => !colIsAllNA t j))).ncols
          = ((List.range t.ncols).filter (fun j => !colIsAllNA t j)).length :=
        selectCols_header_length t _
      have hne : (selectCols t ((List.range t.ncols).filter
          (fun j => !colIsAllNA t j))).isEmptyDf = false := by
        simp only [Table.isEmptyDf, selectCols, Bool.or_eq_false_iff]
        constructor
        · simp [hrows]
        · simp [List.isEmpty_iff, hAnil]
      unfold dropnaAllCols drop_empty_columns uniformDropEmptyCols
      rw [if_neg (by simp [hne])]
      have hcsel : ∀ j ∈ List.range (selectCols t ((List.range t.ncols).filter
            (fun j => !colIsAllNA t j))).ncols,
          colIsAllEmpty (selectCols t ((List.range t.ncols).filter
            (fun j => !colIsAllNA t j))) j =
          colIsAllEmpty t (((List.range t.ncols).filter (fun j => !colIsAllNA t j)).getD j 0) :=
        fun j hj => colIsAllEmpty_selectCols (by
          rw [List.mem_range, hncols] at hj
          exact hj)
      by_cases hany : ((List.range (selectCols t ((List.range t.ncols).filter
          (fun j => !colIsAllNA t j))).ncols).any
            (fun j => colIsAllEmpty (selectCols t ((List.range t.ncols).filter
              (fun j => !colIsAllNA t j))) j)) = true
      · rw [if_pos hany]
        have hBcong : (List.range (selectCols t ((List.range t.ncols).filter
              (fun j => !colIsAllNA t j))).ncols).filter
            (fun j => !colIsAllEmpty (selectCols t ((List.range t.ncols).filter
              (fun j => !colIsAllNA t j))) j) =
            (List.range ((List.range t.ncols).filter (fun j => !colIsAllNA t j)).length).filter
              (fun j => !colIsAllEmpty t
                (((List.range t.ncols).filter (fun j => !colIsAllNA t j)).getD j 0)) := by
          rw [hncols] at hcsel ⊢
          exact List.filter_congr (fun j hj => by rw [hcsel j hj])
        rw [hBcong]
        rw [selectCols_selectCols (fun j hj => List.mem_range.mp (List.mem_filter.mp hj).1)]
        rw [range_filter_comp ((List.range t.ncols).filter (fun j => !colIsAllNA t j))
          (fun a => !colIsAllEmpty t a) 0]
        rw [List.filter_filter]
        congr 1
        refine List.filter_congr (fun j _ => ?_)
        by_cases hemp : colIsAllEmpty t j = true
        · simp [hemp]
        · rw [Bool.not_eq_true] at hemp
          have hna : colIsAllNA t j = false := by
            by_contra hcon
            rw [Bool.not_eq_false] at hcon
            rw [colAllNA_imp_allEmpty t j hcon] at hemp
            exact absurd hemp (by simp)
          simp [hemp, hna]
      · rw [if_neg hany]
        have hAG : (List.range t.ncols).filter (fun j => !colIsAllNA t j) =
            (List.range t.ncols).filter (fun j => !colIsAllEmpty t j) := by
          refine List.filter_congr (fun j hj => ?_)
          by_cases hna : colIsAllNA t j = true
          · rw [hna, colAllNA_imp_allEmpty t j hna]
          · rw [Bool.not_eq_true] at hna
            have hjA : j ∈ (List.range t.ncols).filter (fun jj => !colIsAllNA t jj) :=
              List.mem_filter.mpr ⟨hj, by simp [hna]⟩
            obtain ⟨j', hj', hget⟩ := List.mem_iff_getElem.mp hjA
            have hanyf := hany
            rw [List.any_eq_true] at hanyf
            push_neg at hanyf
            have hfalse : colIsAllEmpty t j = false := by
              have hmem : j' ∈ List.range (selectCols t ((List.range t.ncols).filter
                  (fun jj => !colIsAllNA t jj))).ncols := by
                rw [List.mem_range, hncols]
                exact hj'
              have := hanyf _ hmem
              rw [hcsel _ hmem] at this
              rw [List.getD_eq_getElem _ 0 hj', hget] at this
              simpa using this
            rw [hna, hfalse]
        rw [hAG]

/-! ### Claim C5 -/

/-- Counterexample to C5 as stated: an interior row whose cells are all
empty under the uniform predicate — here a whitespace-only string — is
present in the output of `clean_table`, because the row-removal step is
`dropna(axis=0, how="all")`, which tests only missing-value markers and not
the uniform cell-emptiness predicate. -/
theorem clean_table_whitespace_row_cex :
    clean_table (Table.mk ["a"] [[Cell.str "x"], [Cell.str " "], [Cell.str "y"]]) =
      Table.mk ["a"] [[Cell.str "x"], [Cell.str " "], [Cell.str "y"]] ∧
    ([Cell.str " "].all cellIsEmpty = true) ∧
    [Cell.str " "] ∈ (clean_table (Table.mk ["a"]
      [[Cell.str "x"], [Cell.str " "], [Cell.str "y"]])).rows := by
  decide

/-- Claim C5 (amended): `clean_table` removes every column that is empty in
all rows under the uniform cell-emptiness predicate, then removes every row
whose cells are all missing-value markers (`NaN` only — a row empty merely
through whitespace-only strings is kept), then trims trailing empty rows;
consequently every surviving row has at least one non-missing cell. -/
theorem clean_table_stage_spec (t : Table) :
    clean_table t =
      drop_trailing_empty_rows (dropnaAllRows (uniformDropEmptyCols t)) ∧
    ∀ r ∈ (clean_table t).rows, r.all Cell.isna = false := by
  have h1 : clean_table t =
      drop_trailing_empty_rows (dropnaAllRows (uniformDropEmptyCols t)) := by
    unfold clean_table
    rw [column_stage_eq]
  refine ⟨h1, fun r hr => ?_⟩
  rw [h1] at hr
  have hsub := (trim_header_and_sub (dropnaAllRows (uniformDropEmptyCols t))).2 r hr
  unfold dropnaAllRows at hsub
  have := (List.mem_filter.mp hsub).2
  simpa using this

/-! ### Fixpoint lemmas for `clean_table` -/

theorem witness_cell_mem {r : List Cell} {j : Nat}
    (h : cellIsEmpty (r.getD j Cell.na) = false) : r.getD j Cell.na ∈ r := by
  by_cases hlen : j < r.length
  · exact getD_mem_of_lt _ hlen
  · rw [List.getD_eq_default r Cell.na (by omega)] at h
    exact absurd h (by simp [cellIsEmpty])

theorem dropnaAllRows_fixpoint {t : Table} (h : ∀ r ∈ t.rows, r.all Cell.isna = false) :
    dropnaAllRows t = t := by
  obtain ⟨hdr, rows⟩ := t
  unfold dropnaAllRows
  congr 1
  exact List.filter_eq_self.mpr (fun r hr => by simp [h r hr])

theorem trim_fixpoint {t : Table}
    (hlast : ∀ r, t.rows.getLast? = some r → r.all cellIsEmpty = false) :
    drop_trailing_empty_rows t = t := by
  unfold drop_trailing_empty_rows
  dsimp only
  by_cases he : t.isEmptyDf = true
  · rw [if_pos he]
  · rw [if_neg he]
    by_cases hany : ((t.rows.map (fun r => r.all cellIsEmpty)).any id) = true
    · rw [if_pos hany]
      have hrne : t.rows ≠ [] := by
        intro hnil
        apply he
        unfold Table.isEmptyDf
        rw [hnil]
        rfl
      have hlpos : 0 < t.rows.length := List.length_pos.mpr hrne
      have hgl : t.rows.getLast? = some (t.rows.getD (t.rows.length - 1) []) := by
        rw [List.getLast?_eq_getElem? t.rows,
          List.getElem?_eq_getElem (by omega), List.getD_eq_getElem _ _ (by omega)]
      have hple : (!(t.rows.getD (t.rows.length - 1) []).all cellIsEmpty) = true := by
        rw [hlast _ hgl]
        rfl
      have hfc : (List.range t.rows.length).filter
          (fun i => !(t.rows.map (fun r => r.all cellIsEmpty)).getD i true) =
          (List.range t.rows.length).filter
            (fun i => !(t.rows.getD i []).all cellIsEmpty) :=
        List.filter_congr (fun i hi => by
          rw [List.mem_range] at hi
          rw [getD_map_lt (fun r => r.all cellIsEmpty) true [] hi])
      rw [hfc]
      cases hL : ((List.range t.rows.length).filter
          (fun i => !(t.rows.getD i []).all cellIsEmpty)).getLast? with
      | none =>
        have := filter_range_getLast?_none.mp hL (t.rows.length - 1) (by omega)
        rw [this] at hple
        exact absurd hple (by simp)
      | some k =>
        obtain ⟨hk, _, hmax⟩ := filter_range_getLast?_some hL
        have hk1 : k = t.rows.length - 1 := by
          have := hmax (t.rows.length - 1) (by omega) hple
          omega
        rw [hk1]
        dsimp only
        obtain ⟨hdr, rows⟩ := t
        have hpos : 0 < rows.length := hlpos
        congr 1
        rw [show rows.length - 1 + 1 = rows.length from by omega, List.take_length]
    · rw [if_neg hany]

theorem colstage_fixpoint {t : Table} (hrect : t.Rect)
    (hcols : ∀ j, j < t.ncols → colIsAllEmpty t j = false) :
    drop_empty_columns (dropnaAllCols t) = t := by
  rw [column_stage_eq]
  unfold uniformDropEmptyCols
  rw [show (List.range t.ncols).filter (fun j => !colIsAllEmpty t j) = List.range t.ncols
    from List.filter_eq_self.mpr (fun j hj => by
      simp [hcols j (List.mem_range.mp hj)])]
  exact selectCols_range t hrect

theorem clean_fixpoint {u : Table} (hrect : u.Rect)
    (hcols : ∀ j, j < u.ncols → colIsAllEmpty u j = false)
    (hrows : ∀ r ∈ u.rows, r.all Cell.isna = false)
    (hlast : ∀ r, u.rows.getLast? = some r → r.all cellIsEmpty = false) :
    clean_table u = u := by
  unfold clean_table
  rw [show drop_empty_columns (dropnaAllCols u) = u from colstage_fixpoint hrect hcols,
    dropnaAllRows_fixpoint hrows]
  exact trim_fixpoint hlast

/-- Invariants of the trim-after-row-drop composition applied to a column
selection whose every selected column has a non-empty cell. -/
theorem cleaned_properties_aux (t : Table) (G : List Nat) (hGne : G ≠ [])
    (hGprop : ∀ j ∈ G, colIsAllEmpty t j = false) :
    (drop_trailing_empty_rows (dropnaAllRows (selectCols t G))).Rect ∧
    (∀ j, j < (drop_trailing_empty_rows (dropnaAllRows (selectCols t G))).ncols →
      colIsAllEmpty (drop_trailing_empty_rows (dropnaAllRows (selectCols t G))) j = false) ∧
    (∀ r ∈ (drop_trailing_empty_rows (dropnaAllRows (selectCols t G))).rows,
      r.all Cell.isna = false) ∧
    (∀ r, (drop_trailing_empty_rows (dropnaAllRows (selectCols t G))).rows.getLast? = some r →
      r.all cellIsEmpty = false) := by
  set V := dropnaAllRows (selectCols t G) with hV
  set W := drop_trailing_empty_rows V with hW
  have hvheader : V.header = (selectCols t G).header := by
    rw [hV]
    exact rfl
  have hvrows : V.rows = (selectCols t G).rows.filter (fun r => !r.all Cell.isna) := by
    rw [hV]
    exact rfl
  have hsellen : (selectCols t G).header.length = G.length := selectCols_header_length t G
  have hGlen : 0 < G.length := List.length_pos.mpr hGne
  obtain ⟨hTh, hTtake, hTdrop, hTlast⟩ :=
    trim_spec V (by rw [hvheader, hsellen]; omega)
  rw [← hW] at hTh hTtake hTdrop hTlast
  obtain ⟨hTh2, hTsub⟩ := trim_header_and_sub V
  rw [← hW] at hTh2 hTsub
  have hwsubsel : ∀ r ∈ W.rows, r ∈ (selectCols t G).rows := by
    intro r hr
    have hm := hTsub r hr
    rw [hvrows] at hm
    exact (List.mem_filter.mp hm).1
  have hwkeep : ∀ r ∈ W.rows, r.all Cell.isna = false := by
    intro r hr
    have hm := hTsub r hr
    rw [hvrows] at hm
    have := (List.mem_filter.mp hm).2
    simpa using this
  have hrect : W.Rect := by
    intro r hr
    have := selectCols_rect t G r (hwsubsel r hr)
    rw [hTh, hvheader]
    exact this
  have hwncols : W.ncols = G.length := by
    unfold Table.ncols
    rw [hTh, hvheader, hsellen]
  have hlenle : W.rows.length ≤ V.rows.length := by
    have := congrArg List.length hTtake
    rw [List.length_take] at this
    omega
  have hwit : ∀ j, j < G.length →
      ∃ r ∈ W.rows, cellIsEmpty (r.getD j Cell.na) = false := by
    intro j hj
    have hce : colIsAllEmpty (selectCols t G) j = false := by
      rw [colIsAllEmpty_selectCols hj]
      exact hGprop _ (getD_mem_of_lt 0 hj)
    unfold colIsAllEmpty at hce
    obtain ⟨r, hrT, hrp⟩ := List.all_eq_false.mp hce
    have hrc : cellIsEmpty (r.getD j Cell.na) = false := by simpa using hrp
    have hxmem := witness_cell_mem hrc
    have hnotna := not_empty_imp_not_na hrc
    have hkeep : r.all Cell.isna = false :=
      List.all_eq_false.mpr ⟨_, hxmem, by rw [hnotna]; simp⟩
    have hrv : r ∈ V.rows := by
      rw [hvrows]
      exact List.mem_filter.mpr ⟨hrT, by rw [hkeep]; rfl⟩
    obtain ⟨i, hi, hri⟩ := List.mem_iff_getElem.mp hrv
    by_cases hik : i < W.rows.length
    · refine ⟨r, ?_, hrc⟩
      have hlen2 : i < (V.rows.take W.rows.length).length := by
        rw [List.length_take]
        omega
      have hgd : (V.rows.take W.rows.length).getD i [] = r := by
        rw [List.getD_eq_getElem _ _ hlen2]
        simp only [List.getElem_take]
        exact hri
      rw [hTtake, ← hgd]
      exact getD_mem_of_lt [] hlen2
    · exfalso
      have hemp := hTdrop i (by omega) hi
      rw [List.getD_eq_getElem _ _ hi, hri] at hemp
      have hxe := List.all_eq_true.mp hemp _ hxmem
      rw [hxe] at hrc
      exact absurd hrc (by simp)
  refine ⟨hrect, ?_, hwkeep, ?_⟩
  · intro j hj
    rw [hwncols] at hj
    obtain ⟨r, hrw, hrc⟩ := hwit j hj
    unfold colIsAllEmpty
    exact List.all_eq_false.mpr ⟨r, hrw, by rw [hrc]; simp⟩
  · intro r hr
    have hlne : W.rows ≠ [] := by
      intro hnil
      rw [hnil] at hr
      simp at hr
    have hlpos : 0 < W.rows.length := List.length_pos.mpr hlne
    rcases hTlast with h0 | hlastf
    · omega
    · have hgl : W.rows.getLast? = some (W.rows.getD (W.rows.length - 1) []) := by
        rw [List.getLast?_eq_getElem? W.rows, List.getElem?_eq_getElem (by omega),
          List.getD_eq_getElem _ _ (by omega)]
      rw [hgl] at hr
      injection hr with hr
      have hb1 : W.rows.length - 1 < (V.rows.take W.rows.length).length := by
        rw [List.length_take]
        omega
      have hb2 : W.rows.length - 1 < V.rows.length := by omega
      have hidx : W.rows.getD (W.rows.length - 1) [] =
          V.rows.getD (W.rows.length - 1) [] := by
        conv_lhs => rw [hTtake]
        have hlt : (List.take W.rows.length V.rows).length = W.rows.length := by
          rw [← hTtake]
        rw [hlt, List.getD_eq_getElem _ _ hb1, List.getD_eq_getElem _ _ hb2]
        simp [List.getElem_take]
      rw [← hr, hidx]
      exact hlastf

/-! ### Claim C8 -/

/-- Claim C8: `clean_table` is idempotent — applying it twice yields the
same table as applying it once, for every table. -/
theorem clean_table_idempotent (t : Table) :
    clean_table (clean_table t) = clean_table t := by
  have hstage : clean_table t =
      drop_trailing_empty_rows (dropnaAllRows (uniformDropEmptyCols t)) := by
    unfold clean_table
    rw [column_stage_eq]
  cases hGnil : (List.range t.ncols).filter (fun j => !colIsAllEmpty t j) with
  | nil =>
    have hu : clean_table t = Table.mk [] [] := by
      rw [hstage]
      unfold uniformDropEmptyCols
      rw [hGnil]
      have hv : dropnaAllRows (selectCols t []) = Table.mk [] [] := by
        unfold dropnaAllRows selectCols
        congr 1
        rw [List.filter_eq_nil_iff]
        intro r hr
        rw [List.mem_map] at hr
        obtain ⟨r0, _, rfl⟩ := hr
        simp
      rw [hv]
      decide
    rw [hu]
    exact clean_fixpoint
      (fun r hr => by simp at hr)
      (fun j hj => by simp [Table.ncols] at hj)
      (fun r hr => by simp at hr)
      (fun r hr => by simp at hr)
  | cons g0 Gtl =>
    have hGprop : ∀ j ∈ g0 :: Gtl, colIsAllEmpty t j = false := by
      intro j hj
      rw [← hGnil] at hj
      have := (List.mem_filter.mp hj).2
      simpa using this
    obtain ⟨hrect, hcols, hrows, hlast⟩ :=
      cleaned_properties_aux t (g0 :: Gtl) (by simp) hGprop
    have hu : clean_table t =
        drop_trailing_empty_rows (dropnaAllRows (selectCols t (g0 :: Gtl))) := by
      rw [hstage]
      unfold uniformDropEmptyCols
      rw [hGnil]
    rw [hu]
    exact clean_fixpoint hrect hcols hrows hlast

end DataCleaner
